import Mathlib

/-
Verification development for the ss-key-value-store repository.

Shallow embedding of the trust subsystem:
  * `PathResolver.getPathInfo` (src/src/foundation/PathResolver.py) — caller
    resolution from a call stack against configured base paths;
  * `Credentials` / `Credentials.with_updated_access`
    (src/src/primitives/Credentials.py);
  * `CredentialManager` (src/src/services/CredentialManager.py) — register /
    validate / getCredential / getKey over a protected credential table;
  * `KVStore` (src/src/services/KVStore.py) — private, shared-RW and
    shared-admin namespaces.

Modelling conventions:
  * Filesystem paths are canonical component lists (`List String`), mirroring
    `pathlib.Path.parts` of an already-resolved absolute path; `Path.resolve()`
    is the identity on this representation.
  * The runtime call stack of `traceback.extract_stack()` is passed explicitly
    to each operation as a list of frame file paths, outermost first (the last
    element plays the role of the resolver's own frame, which the code drops).
  * `time.time()` values and `secrets.token_urlsafe(16)` outputs are passed
    explicitly as parameters (`now`, `tokenSuffix`).
  * Python `dict` is an insertion-ordered association list; updating an
    existing key keeps its position, a new key is appended (CPython semantics).
  * Python numbers appearing in credentials (`float` timestamps, `int`
    counters) are modelled as `Int`; the only arithmetic fact the code relies
    on is falsiness of `0` in `x or y`, captured by `pyOr`.
  * `ProtectedStore` (src/src/foundation/ProtectedStore.py) guards each map
    with a frame check `_check_access_allowed`; every store the claims touch
    is configured with `allowed_accessor` equal to the owning service
    (`CredentialManager` instance, `KVStore` class), and every modelled call
    site is a method of that owner, so the check passes and the store behaves
    as a plain dict on these paths.
-/

namespace SSKV

/-- Access levels, from src/src/primitives/AccessLevel.py. -/
inductive AccessLevel where
  | ADMIN
  | READ_WRITE
  | WRITE_ONLY
  | READ_ONLY
  deriving DecidableEq, Repr

/-- Modelled from the spec: src/src/primitives/AccessOperation.py is not under
src/; the spec's permission table and the code's uses
(`AccessOperation.READ`, `AccessOperation.WRITE`) determine a two-member
enumeration. -/
inductive AccessOperation where
  | READ
  | WRITE
  deriving DecidableEq, Repr

/-- A canonical absolute path, as its `pathlib.Path.parts` component list. -/
abbrev Path := List String

/-- Modelled from the spec: src/src/primitives/PathInfo.py is not under src/;
the spec's `CallerIdentity{name, path, zone}` and the constructions in
`PathResolver.getPathInfo` determine a record with fields `name`, `path`,
`type`. -/
structure PathInfo where
  name : String
  path : Path
  type : String
  deriving DecidableEq, Repr

/-- Substring containment, modelling Python's `sub in s`. -/
def strContains (s sub : String) : Bool :=
  decide (sub.data <:+: s.data)

/-- `stack_path.relative_to(base_path)` on component lists: strip `base` as a
prefix of `p`, `none` when `base` is not a prefix (Python raises `ValueError`,
which `getPathInfo` catches and treats as no match). -/
def relative_to : Path → Path → Option (List String)
  | p, [] => some p
  | [], _ :: _ => none
  | a :: p, b :: base => if a = b then relative_to p base else none

/-- Python's `str.lower()`, character by character (the ASCII lowering that
the zone basenames exercise). -/
def strLower (s : String) : String :=
  String.mk (s.data.map Char.toLower)

/-- `base_path.parts[-1].lower() if 0 < len(base_path.parts) else "unknown"`. -/
def baseTypeOf (base : Path) : String :=
  match base.getLast? with
  | some s => strLower s
  | none => "unknown"

/-- One entry of `matched_paths` in `PathResolver.getPathInfo`. -/
structure Matched where
  base_path : Path
  parts : List String
  base_type : String
  depth : Nat
  deriving DecidableEq, Repr

/-- The `matched_paths` list built for one stack frame: every base path the
frame's file is strictly under, in configured order. -/
def frameMatches (base_paths : List Path) (stack_path : Path) : List Matched :=
  base_paths.filterMap fun base =>
    match relative_to stack_path base with
    | none => none
    | some parts =>
        if 0 < parts.length then
          some { base_path := base
                 parts := parts
                 base_type := baseTypeOf base
                 depth := base.length }
        else none

/-- Head of `matched_paths` after the stable `sort(key=depth, reverse=True)`:
the earliest entry of maximal depth. -/
def pickBest : Matched → List Matched → Matched
  | best, [] => best
  | best, m :: ms => pickBest (if best.depth < m.depth then m else best) ms

/-- The frame loop of `PathResolver.getPathInfo`: first frame (in the given
iteration order) with any match wins. -/
def resolveFrames (base_paths : List Path) : List Path → Except String PathInfo
  | [] => Except.error "Caller name could not be determined."
  | f :: fs =>
      match frameMatches base_paths f with
      | [] => resolveFrames base_paths fs
      | m :: ms =>
          let best := pickBest m ms
          Except.ok { name := best.parts.headI, path := f, type := best.base_type }

/-- `PathResolver.getPathInfo` (src/src/foundation/PathResolver.py): drop the
resolver's own frame (`stacks[:-1]`), iterate innermost first (`reversed`). -/
def getPathInfo (base_paths : List Path) (frames : List Path) : Except String PathInfo :=
  if frames.isEmpty then Except.error "No stack frames found."
  else resolveFrames base_paths frames.dropLast.reverse

/-- Immutable credential value, from src/src/primitives/Credentials.py. -/
structure Credentials where
  name : String
  key : String
  access_level : AccessLevel
  path : Path
  type : String
  enabled : Bool
  created_at : Int
  last_access : Int
  access_count : Int
  deriving DecidableEq, Repr

/-- Python's `x or y` on an optional number: `None` and `0` are falsy. -/
def pyOr (x : Option Int) (y : Int) : Int :=
  match x with
  | none => y
  | some t => if t = 0 then y else t

/-- `Credentials.with_updated_access` (src/src/primitives/Credentials.py):
`last_access=last_access or time.time()`,
`access_count=access_count or (self.access_count + 1)`, `enabled=True`,
all other fields copied. -/
def Credentials.with_updated_access (c : Credentials)
    (last_access : Option Int) (access_count : Option Int) (now : Int) : Credentials :=
  { name := c.name
    key := c.key
    access_level := c.access_level
    path := c.path
    type := c.type
    enabled := true
    created_at := c.created_at
    last_access := pyOr last_access now
    access_count := pyOr access_count (c.access_count + 1) }

/-- An insertion-ordered Python dict as an association list. -/
abbrev Dict (α : Type) := List (String × α)

/-- `d[k] = v` on a Python dict: replace in place if the key exists, else
append. -/
def dictSet {α : Type} : Dict α → String → α → Dict α
  | [], k, v => [(k, v)]
  | (k', v') :: rest, k, v =>
      if k' = k then (k, v) :: rest else (k', v') :: dictSet rest k v

/-- `d.get(k)` / `d[k]` lookup on a Python dict. -/
def dictGet {α : Type} : Dict α → String → Option α
  | [], _ => none
  | (k', v') :: rest, k => if k' = k then some v' else dictGet rest k

/-- `k in d` on a Python dict. -/
def dictHas {α : Type} (d : Dict α) (k : String) : Bool :=
  (dictGet d k).isSome

/-- `d.values()` on a Python dict, in insertion order. -/
def dictValues {α : Type} (d : Dict α) : List α :=
  d.map Prod.snd

/-- Decidable equality on `Except`, used to evaluate the operations on
concrete inputs. -/
instance {e a : Type} [DecidableEq e] [DecidableEq a] : DecidableEq (Except e a) := fun x y =>
  match x, y with
  | Except.error u, Except.error v =>
      if h : u = v then Decidable.isTrue (by rw [h])
      else Decidable.isFalse (fun hc => h (Except.error.inj hc))
  | Except.ok u, Except.ok v =>
      if h : u = v then Decidable.isTrue (by rw [h])
      else Decidable.isFalse (fun hc => h (Except.ok.inj hc))
  | Except.error _, Except.ok _ => Decidable.isFalse (fun hc => Except.noConfusion hc)
  | Except.ok _, Except.error _ => Decidable.isFalse (fun hc => Except.noConfusion hc)

/-- State of a `CredentialManager` (src/src/services/CredentialManager.py):
the configured resolver roots and the protected `_credentials` table. -/
structure CMState where
  base_paths : List Path
  table : Dict Credentials
  deriving DecidableEq, Repr

/-- `CredentialManager.__init__`: empty table. -/
def CMState.init (base_paths : List Path) : CMState :=
  { base_paths := base_paths, table := [] }

/-- `CredentialManager.canEscalateToAdmin`: false iff the path-info type
contains `"plugin"` or contains `"unknown"` (Python `in` is substring
containment). -/
def canEscalateToAdmin (pathinfo : PathInfo) : Bool :=
  if strContains pathinfo.type "plugin" || strContains pathinfo.type "unknown" then
    false
  else
    true

/-- `CredentialManager.register` without the callback fan-out (callbacks live
on the `KVStore` model below; they cannot touch the credential table, and
their exceptions are swallowed by the code). `tokenSuffix` stands for
`secrets.token_urlsafe(16)`, `now` for `time.time()`. -/
def CMState.register (st : CMState) (frames : List Path) (access_level : AccessLevel)
    (tokenSuffix : String) (now : Int) : Except String (CMState × Credentials) :=
  match getPathInfo st.base_paths frames with
  | Except.error e => Except.error e
  | Except.ok pathinfo =>
      let caller := pathinfo.name
      if access_level = AccessLevel.ADMIN && !canEscalateToAdmin pathinfo then
        Except.error ("Admin access level is not allowed for caller: " ++ caller)
      else
        let credential : Credentials :=
          { name := caller
            key := caller ++ "_" ++ tokenSuffix
            access_level := access_level
            path := pathinfo.path
            type := pathinfo.type
            enabled := false
            created_at := now
            last_access := now
            access_count := 0 }
        Except.ok ({ st with table := dictSet st.table caller credential }, credential)

/-- The `if`/`elif` chain of `CredentialManager.getCredential` as a predicate
on a single credential: does this level admit this operation? -/
def levelPermits (level : AccessLevel) (operation : AccessOperation) : Bool :=
  match level, operation with
  | AccessLevel.ADMIN, _ => true
  | AccessLevel.READ_WRITE, AccessOperation.READ => true
  | AccessLevel.READ_WRITE, AccessOperation.WRITE => true
  | AccessLevel.WRITE_ONLY, AccessOperation.WRITE => true
  | AccessLevel.READ_ONLY, AccessOperation.READ => true
  | _, _ => false

/-- The `for credential in self._credentials.values()` loop of
`getCredential`: first credential whose name matches the caller and whose
level admits the operation (a name match with the wrong level just continues
the loop). -/
def findPermitted (caller : String) (operation : AccessOperation) :
    List Credentials → Option Credentials
  | [] => none
  | c :: cs =>
      if c.name = caller && levelPermits c.access_level operation then some c
      else findPermitted caller operation cs

/-- `CredentialManager._enableCredentials`: return the enabled copy and, when
the name is still in the table, replace the stored row with the stat-updated
copy. -/
def enableCredentials (st : CMState) (credential : Credentials) (now : Int) :
    CMState × Credentials :=
  let enabled_credential := credential.with_updated_access none none now
  let st' :=
    if dictHas st.table credential.name then
      { st with
        table := dictSet st.table credential.name
          (credential.with_updated_access (some enabled_credential.last_access)
            (some enabled_credential.access_count) now) }
    else st
  (st', enabled_credential)

/-- `CredentialManager.getCredential`: resolve the caller, scan the table
values, enable the first admissible credential, else raise `ValueError`. -/
def CMState.getCredential (st : CMState) (frames : List Path)
    (operation : AccessOperation) (now : Int) : Except String (CMState × Credentials) :=
  match getPathInfo st.base_paths frames with
  | Except.error e => Except.error e
  | Except.ok pathinfo =>
      match findPermitted pathinfo.name operation (dictValues st.table) with
      | some credential => Except.ok (enableCredentials st credential now)
      | none => Except.error ("Invalid credential: " ++ pathinfo.name)

/-- `CredentialManager.validate`: `getCredential`'s `enabled` field, with any
`ValueError` swallowed into `false` (the table is untouched on that path). -/
def CMState.validate (st : CMState) (frames : List Path)
    (operation : AccessOperation) (now : Int) : CMState × Bool :=
  match st.getCredential frames operation now with
  | Except.ok (st', credential) => (st', credential.enabled)
  | Except.error _ => (st, false)

/-- `CredentialManager.getKey`: first stored value with the caller's name. -/
def CMState.getKey (st : CMState) (frames : List Path) : Except String String :=
  match getPathInfo st.base_paths frames with
  | Except.error e => Except.error e
  | Except.ok pathinfo =>
      match (dictValues st.table).find? (fun c => c.name = pathinfo.name) with
      | some credential => Except.ok credential.key
      | none => Except.error ("No valid credential found for caller: " ++ pathinfo.name)

/-- A `ProtectedStore` holding string values, as its underlying dict (see the
modelling conventions above: the accessor check passes on every modelled
path). -/
abbrev Store := Dict String

/-- State of a `KVStore` (src/src/services/KVStore.py): the credential
manager it wraps, the registry of per-caller private stores, and the two
shared stores. -/
structure KVState where
  cm : CMState
  caller_storages : Dict Store
  shared_read_write_store : Store
  shared_read_only_store : Store
  deriving DecidableEq, Repr

/-- `KVStore.__init__`: empty stores around a credential manager (the
register callback wiring is reflected in `KVState.register` below). -/
def KVState.init (base_paths : List Path) : KVState :=
  { cm := CMState.init base_paths
    caller_storages := []
    shared_read_write_store := []
    shared_read_only_store := [] }

/-- `CredentialManager.register` as called with a `KVStore` subscribed:
on success the `_on_credential_registered` callback installs a fresh empty
`ProtectedStore` under the credential's name (replacing any existing one). -/
def KVState.register (st : KVState) (frames : List Path) (access_level : AccessLevel)
    (tokenSuffix : String) (now : Int) : Except String (KVState × Credentials) :=
  match st.cm.register frames access_level tokenSuffix now with
  | Except.error e => Except.error e
  | Except.ok (cm', credential) =>
      Except.ok
        ({ st with
           cm := cm'
           caller_storages := dictSet st.caller_storages credential.name [] },
         credential)

/-- `KVStore._get_caller_storage`: re-resolve the caller and look up its
private store; `ValueError` when absent. -/
def getCallerStorage (st : KVState) (frames : List Path) : Except String Store :=
  match getPathInfo st.cm.base_paths frames with
  | Except.error e => Except.error e
  | Except.ok pathinfo =>
      match dictGet st.caller_storages pathinfo.name with
      | none => Except.error ("No storage found for caller: " ++ pathinfo.name)
      | some storage => Except.ok storage

/-- `KVStore.set`: call `validate(WRITE)` (result unused, but its stat bump
on the credential table is kept), then write into the caller's private
store;  exceptions from `_get_caller_storage` propagate. -/
def KVState.set (st : KVState) (frames : List Path) (key value : String) (now : Int) :
    KVState × Except String Unit :=
  let cm' := (st.cm.validate frames AccessOperation.WRITE now).1
  let st := { st with cm := cm' }
  match getPathInfo st.cm.base_paths frames with
  | Except.error e => (st, Except.error e)
  | Except.ok pathinfo =>
      match dictGet st.caller_storages pathinfo.name with
      | none => (st, Except.error ("No storage found for caller: " ++ pathinfo.name))
      | some storage =>
          ({ st with
             caller_storages :=
               dictSet st.caller_storages pathinfo.name (dictSet storage key value) },
           Except.ok ())

/-- `KVStore.get`: call `validate(READ)` (result unused), then
`caller_storage.get(key, default)`; the result `none` stands for Python's
`None` default. -/
def KVState.get (st : KVState) (frames : List Path) (key : String)
    (default : Option String) (now : Int) : KVState × Except String (Option String) :=
  let cm' := (st.cm.validate frames AccessOperation.READ now).1
  let st := { st with cm := cm' }
  match getPathInfo st.cm.base_paths frames with
  | Except.error e => (st, Except.error e)
  | Except.ok pathinfo =>
      match dictGet st.caller_storages pathinfo.name with
      | none => (st, Except.error ("No storage found for caller: " ++ pathinfo.name))
      | some storage =>
          (st,
           Except.ok (match dictGet storage key with
             | some v => some v
             | none => default))

/-- `KVStore.shared_set`: call `validate(WRITE)` and ignore its boolean
result, then unconditionally write into the shared read-write store; no
exception is ever raised on this path. -/
def KVState.shared_set (st : KVState) (frames : List Path) (key value : String)
    (now : Int) : KVState × Except String Unit :=
  let cm' := (st.cm.validate frames AccessOperation.WRITE now).1
  ({ st with
     cm := cm'
     shared_read_write_store := dictSet st.shared_read_write_store key value },
   Except.ok ())

/-- `KVStore.shared_get`: call `validate(READ)` and ignore its boolean
result, then read the shared read-write store with a default. -/
def KVState.shared_get (st : KVState) (frames : List Path) (key : String)
    (default : Option String) (now : Int) : KVState × Except String (Option String) :=
  let cm' := (st.cm.validate frames AccessOperation.READ now).1
  ({ st with cm := cm' },
   Except.ok (match dictGet st.shared_read_write_store key with
     | some v => some v
     | none => default))

/-- The Python value stored in `AccessContext.timestamp`: either the
`time.time` function object itself, or a numeric clock reading. -/
inductive TimestampValue where
  | funcRef
  | clock (t : Int)
  deriving DecidableEq, Repr

/-- `AccessContext` (src/src/primitives/AccessContext.py). -/
structure AccessContext where
  name : String
  key : String
  operation : String
  caller : String
  value : Option String
  timestamp : TimestampValue
  deriving DecidableEq, Repr

/-- Constructing an `AccessContext` without explicit `value` / `timestamp`
arguments: `value` defaults to `None`; `timestamp` runs
`field(default_factory=lambda: time.time)`, and the factory — the lambda —
returns the `time.time` function object, never a clock reading, so the
wall-clock at construction (`_now`) is not consulted. -/
def AccessContext.mkDefault (name key operation caller : String) (_now : Int) :
    AccessContext :=
  { name := name
    key := key
    operation := operation
    caller := caller
    value := none
    timestamp := (fun _ => TimestampValue.funcRef) () }

/-- Every stored credential's `name` equals its table key. -/
def NamesMatch (d : Dict Credentials) : Prop :=
  ∀ p ∈ d, (p.2).name = p.1

instance (d : Dict Credentials) : Decidable (NamesMatch d) := by
  unfold NamesMatch
  infer_instance

/-- A credential table is well formed when its keys are distinct and every
stored credential's `name` equals its table key (the invariant the manager
maintains, see `C9` below). -/
def WellFormed (st : CMState) : Prop :=
  (st.table.map Prod.fst).Nodup ∧ ∀ p ∈ st.table, (p.2).name = p.1

instance (st : CMState) : Decidable (WellFormed st) := by
  unfold WellFormed
  infer_instance

/-- One public call to the credential manager, carrying its runtime inputs
(call stack, clock, token randomness). -/
inductive CMOp where
  | registerOp (frames : List Path) (access_level : AccessLevel) (tokenSuffix : String) (now : Int)
  | validateOp (frames : List Path) (operation : AccessOperation) (now : Int)
  | getCredentialOp (frames : List Path) (operation : AccessOperation) (now : Int)
  | getKeyOp (frames : List Path)

/-- The state after one call: a raised exception leaves the table as the
operation left it (none of the raising paths mutate it first). -/
def stepCM (st : CMState) : CMOp → CMState
  | CMOp.registerOp frames lvl tok now =>
      match st.register frames lvl tok now with
      | Except.ok (st', _) => st'
      | Except.error _ => st
  | CMOp.validateOp frames operation now => (st.validate frames operation now).1
  | CMOp.getCredentialOp frames operation now =>
      match st.getCredential frames operation now with
      | Except.ok (st', _) => st'
      | Except.error _ => st
  | CMOp.getKeyOp _ => st

/-- The spec's permission table, stated per level: ADMIN and READ_WRITE admit
both operations, WRITE_ONLY only WRITE, READ_ONLY only READ. -/
def permitsTable (level : AccessLevel) (operation : AccessOperation) : Bool :=
  match level with
  | AccessLevel.ADMIN => true
  | AccessLevel.READ_WRITE => true
  | AccessLevel.WRITE_ONLY => decide (operation = AccessOperation.WRITE)
  | AccessLevel.READ_ONLY => decide (operation = AccessOperation.READ)

/-! ### A concrete deployment used by counterexamples and witnesses

One zone root `/core`; module `b` calls in with source file
`/core/b/mod.py`; the innermost stack entry is the resolver's own frame. -/

/-- The single configured zone root `/core`. -/
def coreRoot : Path := ["/", "core"]

/-- Source file of caller `b`: `/core/b/mod.py`. -/
def frameB : Path := ["/", "core", "b", "mod.py"]

/-- The resolver's own frame (dropped by `stacks[:-1]`). -/
def frameRes : Path := ["/", "lib", "res.py"]

/-- The call stack as seen inside `getPathInfo` when `b` calls an operation. -/
def framesB : List Path := [frameB, frameRes]

/-- The `KVStore` state after caller `b` ran `register(READ_ONLY)` at time 1
with token suffix `"tok"` (the error branch is unreachable here). -/
def stB : KVState :=
  match (KVState.init [coreRoot]).register framesB AccessLevel.READ_ONLY "tok" 1 with
  | Except.ok (st, _) => st
  | Except.error _ => KVState.init []

/-- The credential issued to `b` by that registration. -/
def credB : Credentials :=
  { name := "b", key := "b_tok", access_level := AccessLevel.READ_ONLY,
    path := frameB, type := "core", enabled := false,
    created_at := 1, last_access := 1, access_count := 0 }

/-- The state after `b` then stored `set("k","v")` at time 2. -/
def stB2 : KVState := (stB.set framesB "k" "v" 2).1

/-- The state after `b` then re-ran `register(READ_WRITE)` at time 3. -/
def stB3 : KVState :=
  match stB2.register framesB AccessLevel.READ_WRITE "tok2" 3 with
  | Except.ok (st, _) => st
  | Except.error _ => KVState.init []

/-- The credential issued by the second registration of `b`. -/
def credB2 : Credentials :=
  { name := "b", key := "b_tok2", access_level := AccessLevel.READ_WRITE,
    path := frameB, type := "core", enabled := false,
    created_at := 3, last_access := 3, access_count := 0 }

/-- A zone root whose basename `zunknown` properly contains `"unknown"`. -/
def zunknownRoot : Path := ["/", "zunknown"]

/-- Call stack of the module `mod` under the `zunknown` zone root. -/
def framesZ : List Path := [["/", "zunknown", "mod", "x.py"], frameRes]

/-! ### Helper lemmas about the dict model -/

theorem dictGet_dictSet_self {α : Type} (d : Dict α) (k : String) (v : α) :
    dictGet (dictSet d k v) k = some v := by
  induction d with
  | nil => simp [dictSet, dictGet]
  | cons p rest ih =>
      obtain ⟨k', v'⟩ := p
      by_cases h : k' = k
      · simp [dictSet, dictGet, h]
      · simp [dictSet, dictGet, h, ih]

theorem dictGet_dictSet_ne {α : Type} (d : Dict α) (k j : String) (v : α)
    (h : j ≠ k) : dictGet (dictSet d k v) j = dictGet d j := by
  have hkj : k ≠ j := fun hkj => h hkj.symm
  induction d with
  | nil => simp [dictSet, dictGet, hkj]
  | cons p rest ih =>
      obtain ⟨k', v'⟩ := p
      by_cases hk : k' = k
      · subst hk
        simp [dictSet, dictGet, hkj]
      · by_cases hj : k' = j
        · subst hj
          simp [dictSet, dictGet, hk]
        · simp [dictSet, dictGet, hk, hj, ih]

theorem mem_of_dictGet {α : Type} {d : Dict α} {k : String} {v : α}
    (h : dictGet d k = some v) : (k, v) ∈ d := by
  induction d with
  | nil => simp [dictGet] at h
  | cons p rest ih =>
      obtain ⟨k', v'⟩ := p
      by_cases hk : k' = k
      · subst hk
        simp [dictGet] at h
        simp [h]
      · simp [dictGet, hk] at h
        exact List.mem_cons_of_mem _ (ih h)

theorem dictHas_of_dictGet {α : Type} {d : Dict α} {k : String} {v : α}
    (h : dictGet d k = some v) : dictHas d k = true := by
  simp [dictHas, h]

theorem findPermitted_none_of_not_mem (caller : String) (operation : AccessOperation)
    (d : Dict Credentials) (hnm : ∀ p ∈ d, (p.2).name = p.1)
    (hg : caller ∉ d.map Prod.fst) :
    findPermitted caller operation (dictValues d) = none := by
  induction d with
  | nil => rfl
  | cons p rest ih =>
      obtain ⟨k, c⟩ := p
      have hck : c.name = k := hnm (k, c) (List.mem_cons_self _ _)
      have hkne : ¬c.name = caller := by
        rw [hck]
        intro hk
        exact hg (by simp [hk])
      have hstep : findPermitted caller operation (dictValues ((k, c) :: rest)) =
          findPermitted caller operation (dictValues rest) := by
        simp [dictValues, findPermitted, hkne]
      rw [hstep]
      exact ih (fun p hp => hnm p (List.mem_cons_of_mem _ hp))
        (fun hm => hg (by simp at hm ⊢; exact Or.inr hm))

theorem findPermitted_eq (d : Dict Credentials)
    (hnd : (d.map Prod.fst).Nodup) (hnm : ∀ p ∈ d, (p.2).name = p.1)
    (caller : String) (operation : AccessOperation) :
    findPermitted caller operation (dictValues d) =
      match dictGet d caller with
      | some c => if levelPermits c.access_level operation then some c else none
      | none => none := by
  induction d with
  | nil => rfl
  | cons p rest ih =>
      obtain ⟨k, c⟩ := p
      have hck : c.name = k := hnm (k, c) (List.mem_cons_self _ _)
      have hnd' : (rest.map Prod.fst).Nodup := (List.nodup_cons.mp hnd).2
      have hnm' : ∀ p ∈ rest, (p.2 : Credentials).name = p.1 :=
        fun p hp => hnm p (List.mem_cons_of_mem _ hp)
      by_cases hk : k = caller
      · subst hk
        have hkg : k ∉ rest.map Prod.fst := (List.nodup_cons.mp hnd).1
        by_cases hp : levelPermits c.access_level operation
        · simp [dictValues, findPermitted, dictGet, hck, hp]
        · simp only [dictValues, List.map_cons, findPermitted, dictGet, hck, hp,
            if_true, if_neg, Bool.and_false, decide_True, if_pos]
          simp [hp]
          exact findPermitted_none_of_not_mem k operation rest hnm' hkg
      · have hcne : ¬(c.name = caller) := by
          rw [hck]; exact hk
        have hstep : findPermitted caller operation (dictValues ((k, c) :: rest)) =
            findPermitted caller operation (dictValues rest) := by
          simp [dictValues, findPermitted, hcne]
        rw [hstep]
        have hgstep : dictGet ((k, c) :: rest) caller = dictGet rest caller := by
          simp [dictGet, hk]
        rw [hgstep]
        exact ih hnd' hnm'

/-! ### Elimination and preservation lemmas for the manager operations -/

theorem with_updated_access_name (c : Credentials) (la na : Option Int) (now : Int) :
    (c.with_updated_access la na now).name = c.name := rfl

theorem register_ok_elim {st : CMState} {frames : List Path} {lvl : AccessLevel}
    {tok : String} {now : Int} {st' : CMState} {cred : Credentials}
    (h : st.register frames lvl tok now = Except.ok (st', cred)) :
    ∃ pathinfo, getPathInfo st.base_paths frames = Except.ok pathinfo ∧
      cred.name = pathinfo.name ∧
      st' = { st with table := dictSet st.table pathinfo.name cred } := by
  unfold CMState.register at h
  cases hres : getPathInfo st.base_paths frames with
  | error e => rw [hres] at h; exact absurd h (by simp)
  | ok pathinfo =>
      rw [hres] at h
      dsimp only at h
      refine ⟨pathinfo, rfl, ?_⟩
      by_cases hadm : (decide (lvl = AccessLevel.ADMIN) && !canEscalateToAdmin pathinfo) = true
      · rw [if_pos hadm] at h
        exact absurd h (by simp)
      · rw [if_neg hadm] at h
        simp only [Except.ok.injEq, Prod.mk.injEq] at h
        obtain ⟨hst, hcred⟩ := h
        constructor
        · rw [← hcred]
        · rw [← hst, ← hcred]

theorem enableCredentials_fst (st : CMState) (c : Credentials) (now : Int) :
    (enableCredentials st c now).1 =
      if dictHas st.table c.name then
        { st with
          table := dictSet st.table c.name
                     (c.with_updated_access (some now) (some (c.access_count + 1)) now) }
      else st := rfl

theorem enableCredentials_base_paths (st : CMState) (c : Credentials) (now : Int) :
    ((enableCredentials st c now).1).base_paths = st.base_paths := by
  rw [enableCredentials_fst]
  split <;> rfl

theorem getCredential_ok_base_paths {st : CMState} {frames : List Path}
    {operation : AccessOperation} {now : Int} {st' : CMState} {cred : Credentials}
    (h : st.getCredential frames operation now = Except.ok (st', cred)) :
    st'.base_paths = st.base_paths := by
  unfold CMState.getCredential at h
  cases hres : getPathInfo st.base_paths frames with
  | error e => rw [hres] at h; exact absurd h (by simp)
  | ok pathinfo =>
      rw [hres] at h
      dsimp only at h
      cases hf : findPermitted pathinfo.name operation (dictValues st.table) with
      | none => rw [hf] at h; exact absurd h (by simp)
      | some c =>
          rw [hf] at h
          dsimp only at h
          simp only [Except.ok.injEq] at h
          have hst : st' = (enableCredentials st c now).1 := by rw [h]
          rw [hst, enableCredentials_base_paths]

theorem validate_fst_base_paths (st : CMState) (frames : List Path)
    (operation : AccessOperation) (now : Int) :
    ((st.validate frames operation now).1).base_paths = st.base_paths := by
  unfold CMState.validate
  cases h : st.getCredential frames operation now with
  | error e => rfl
  | ok p =>
      obtain ⟨st', cred⟩ := p
      exact getCredential_ok_base_paths h

theorem kv_register_ok_elim {st : KVState} {frames : List Path} {lvl : AccessLevel}
    {tok : String} {now : Int} {st' : KVState} {cred : Credentials}
    (h : st.register frames lvl tok now = Except.ok (st', cred)) :
    ∃ pathinfo, getPathInfo st.cm.base_paths frames = Except.ok pathinfo ∧
      cred.name = pathinfo.name ∧
      st'.cm.base_paths = st.cm.base_paths ∧
      st'.caller_storages = dictSet st.caller_storages pathinfo.name [] := by
  unfold KVState.register at h
  cases hcm : st.cm.register frames lvl tok now with
  | error e => rw [hcm] at h; exact absurd h (by simp)
  | ok p =>
      obtain ⟨cm', cred₀⟩ := p
      rw [hcm] at h
      simp only [Except.ok.injEq, Prod.mk.injEq] at h
      obtain ⟨hst, hcred⟩ := h
      obtain ⟨pathinfo, hres, hname, hcm'⟩ := register_ok_elim hcm
      refine ⟨pathinfo, hres, ?_, ?_, ?_⟩
      · rw [← hcred]; exact hname
      · rw [← hst, hcm']
      · rw [← hst]
        show dictSet st.caller_storages cred₀.name [] = _
        rw [hname]

theorem enableCredentials_snd (st : CMState) (c : Credentials) (now : Int) :
    (enableCredentials st c now).2 = c.with_updated_access none none now := rfl

theorem with_updated_access_none_none (c : Credentials) (now : Int) :
    c.with_updated_access none none now =
      { c with enabled := true, last_access := now, access_count := c.access_count + 1 } := rfl

theorem with_updated_access_stats (c : Credentials) (now : Int) :
    c.with_updated_access (some now) (some (c.access_count + 1)) now =
      { c with enabled := true, last_access := now, access_count := c.access_count + 1 } := by
  unfold Credentials.with_updated_access pyOr
  simp only [ite_self]

theorem getCredential_ok_elim {st : CMState} {frames : List Path}
    {operation : AccessOperation} {now : Int} {st' : CMState} {cred : Credentials}
    (h : st.getCredential frames operation now = Except.ok (st', cred)) :
    ∃ pathinfo c, getPathInfo st.base_paths frames = Except.ok pathinfo ∧
      findPermitted pathinfo.name operation (dictValues st.table) = some c ∧
      st' = (enableCredentials st c now).1 ∧ cred = (enableCredentials st c now).2 := by
  unfold CMState.getCredential at h
  cases hres : getPathInfo st.base_paths frames with
  | error e => rw [hres] at h; exact absurd h (by simp)
  | ok pathinfo =>
      rw [hres] at h
      dsimp only at h
      cases hf : findPermitted pathinfo.name operation (dictValues st.table) with
      | none => rw [hf] at h; exact absurd h (by simp)
      | some c =>
          rw [hf] at h
          dsimp only at h
          simp only [Except.ok.injEq] at h
          exact ⟨pathinfo, c, rfl, hf, by rw [h], by rw [h]⟩

/-- The specification of `getCredential` over a well-formed table: resolve,
look the caller up by name, check the level, and on success return the
enabled copy while bumping the stored row's stats. -/
theorem getCredential_spec (st : CMState) (frames : List Path)
    (operation : AccessOperation) (now : Int) (hwf : WellFormed st) :
    st.getCredential frames operation now =
      match getPathInfo st.base_paths frames with
      | Except.error e => Except.error e
      | Except.ok pathinfo =>
          match dictGet st.table pathinfo.name with
          | some c =>
              if levelPermits c.access_level operation then
                Except.ok
                  ({ st with
                     table := dictSet st.table pathinfo.name
                                (c.with_updated_access (some now)
                                  (some (c.access_count + 1)) now) },
                   c.with_updated_access none none now)
              else Except.error ("Invalid credential: " ++ pathinfo.name)
          | none => Except.error ("Invalid credential: " ++ pathinfo.name) := by
  unfold CMState.getCredential
  cases hres : getPathInfo st.base_paths frames with
  | error e => rfl
  | ok pathinfo =>
      dsimp only
      rw [findPermitted_eq st.table hwf.1 hwf.2 pathinfo.name operation]
      cases hget : dictGet st.table pathinfo.name with
      | none => rfl
      | some c =>
          dsimp only
          by_cases hp : levelPermits c.access_level operation
          · rw [if_pos hp, if_pos hp]
            have hname : c.name = pathinfo.name := hwf.2 _ (mem_of_dictGet hget)
            have hhas : dictHas st.table c.name = true := by
              rw [hname]; exact dictHas_of_dictGet hget
            unfold enableCredentials
            dsimp only
            rw [if_pos hhas, hname]
            rfl
          · rw [if_neg hp, if_neg hp]

/-! ### The credential-table invariant and the manager's reachable states -/

theorem mem_dictSet {α : Type} {d : Dict α} {k : String} {v : α} {p : String × α}
    (hp : p ∈ dictSet d k v) : p = (k, v) ∨ p ∈ d := by
  induction d with
  | nil =>
      simp [dictSet] at hp
      exact Or.inl hp
  | cons q rest ih =>
      obtain ⟨k', v'⟩ := q
      by_cases hk : k' = k
      · simp only [dictSet, if_pos hk, List.mem_cons] at hp
        rcases hp with hp | hp
        · exact Or.inl hp
        · exact Or.inr (List.mem_cons_of_mem _ hp)
      · simp only [dictSet, if_neg hk, List.mem_cons] at hp
        rcases hp with hp | hp
        · exact Or.inr (by simp [hp])
        · rcases ih hp with hp' | hp'
          · exact Or.inl hp'
          · exact Or.inr (List.mem_cons_of_mem _ hp')

theorem namesMatch_dictSet {d : Dict Credentials} {k : String} {c : Credentials}
    (hd : NamesMatch d) (hc : c.name = k) : NamesMatch (dictSet d k c) :=
  fun p hp =>
    (mem_dictSet hp).elim (fun h => by rw [h]; exact hc) (fun h => hd p h)

theorem register_namesMatch {st : CMState} {frames : List Path} {lvl : AccessLevel}
    {tok : String} {now : Int} {st' : CMState} {cred : Credentials}
    (h : st.register frames lvl tok now = Except.ok (st', cred))
    (hnm : NamesMatch st.table) : NamesMatch st'.table := by
  obtain ⟨pathinfo, _, hname, hst⟩ := register_ok_elim h
  rw [hst]
  exact namesMatch_dictSet hnm hname

theorem enableCredentials_namesMatch (st : CMState) (c : Credentials) (now : Int)
    (hnm : NamesMatch st.table) : NamesMatch ((enableCredentials st c now).1).table := by
  rw [enableCredentials_fst]
  split
  · exact namesMatch_dictSet hnm rfl
  · exact hnm

theorem getCredential_namesMatch {st : CMState} {frames : List Path}
    {operation : AccessOperation} {now : Int} {st' : CMState} {cred : Credentials}
    (h : st.getCredential frames operation now = Except.ok (st', cred))
    (hnm : NamesMatch st.table) : NamesMatch st'.table := by
  obtain ⟨pathinfo, c, _, _, hst, _⟩ := getCredential_ok_elim h
  rw [hst]
  exact enableCredentials_namesMatch st c now hnm

theorem validate_namesMatch (st : CMState) (frames : List Path)
    (operation : AccessOperation) (now : Int)
    (hnm : NamesMatch st.table) : NamesMatch ((st.validate frames operation now).1).table := by
  unfold CMState.validate
  cases h : st.getCredential frames operation now with
  | error e => exact hnm
  | ok p =>
      obtain ⟨st', cred⟩ := p
      exact getCredential_namesMatch h hnm

theorem stepCM_namesMatch (st : CMState) (op : CMOp)
    (hnm : NamesMatch st.table) : NamesMatch (stepCM st op).table := by
  cases op with
  | registerOp frames lvl tok now =>
      simp only [stepCM]
      cases h : st.register frames lvl tok now with
      | error e => exact hnm
      | ok p =>
          obtain ⟨st', cred⟩ := p
          exact register_namesMatch h hnm
  | validateOp frames operation now =>
      exact validate_namesMatch st frames operation now hnm
  | getCredentialOp frames operation now =>
      simp only [stepCM]
      cases h : st.getCredential frames operation now with
      | error e => exact hnm
      | ok p =>
          obtain ⟨st', cred⟩ := p
          exact getCredential_namesMatch h hnm
  | getKeyOp frames => exact hnm

/-! ### Further helper lemmas -/

theorem levelPermits_eq_permitsTable (level : AccessLevel) (operation : AccessOperation) :
    levelPermits level operation = permitsTable level operation := by
  cases level <;> cases operation <;> rfl

theorem relative_to_append (b t : Path) : relative_to (b ++ t) b = some t := by
  induction b with
  | nil => simp [relative_to]
  | cons a b ih => simp [relative_to, ih]

theorem baseTypeOf_eq_getLast (b : Path) (h : b ≠ []) :
    baseTypeOf b = strLower (b.getLast h) := by
  unfold baseTypeOf
  rw [List.getLast?_eq_getLast_of_ne_nil h]

/-! ### The claims -/

/-- C10: `with_updated_access` treats an explicitly supplied `access_count`
of `0` as if absent (result `access_count = prev + 1`) while any non-zero
`n` is kept; an explicit `last_access` of `0` is replaced by the current
time; the result always has `enabled = true`. -/
theorem C10_with_updated_access_or_semantics (c : Credentials) (n now : Int)
    (la na : Option Int) (h : n ≠ 0) :
    (c.with_updated_access none (some n) now).access_count = n ∧
    (c.with_updated_access none (some 0) now).access_count = c.access_count + 1 ∧
    (c.with_updated_access (some 0) none now).last_access = now ∧
    (c.with_updated_access la na now).enabled = true := by
  refine ⟨?_, ?_, ?_, rfl⟩
  · simp [Credentials.with_updated_access, pyOr, h]
  · simp [Credentials.with_updated_access, pyOr]
  · simp [Credentials.with_updated_access, pyOr]

/-- Witness for C10 at `credB`, `n = 5`, `now = 7`. -/
theorem C10_witness :
    (5 : Int) ≠ 0 ∧
    ((credB.with_updated_access none (some 5) 7).access_count = 5 ∧
     (credB.with_updated_access none (some 0) 7).access_count = credB.access_count + 1 ∧
     (credB.with_updated_access (some 0) none 7).last_access = 7 ∧
     (credB.with_updated_access none none 7).enabled = true) :=
  ⟨by decide, C10_with_updated_access_or_semantics credB 5 7 none none (by decide)⟩

/-- C8: an `AccessContext` built without an explicit timestamp stores the
`time.time` function reference as its `timestamp`, not the wall-clock value
at construction (here `123`): the defaulting is a defect, confirming the
claim's intent and refuting the code. -/
theorem C8_access_context_default_timestamp :
    (AccessContext.mkDefault "n" "k" "read" "c" 123).timestamp = TimestampValue.funcRef ∧
    TimestampValue.funcRef ≠ TimestampValue.clock 123 :=
  ⟨rfl, by decide⟩

/-- C1 counterexample: caller `b` is registered `READ_ONLY`, so
`validate(WRITE)` is `false`; yet `shared_set("x","2")` raises nothing and
writes the shared store — no *PermissionDenied* occurs. -/
theorem C1_counterexample :
    (stB.cm.validate framesB AccessOperation.WRITE 5).2 = false ∧
    (stB.shared_set framesB "x" "2" 5).2 = Except.ok () ∧
    dictGet (stB.shared_set framesB "x" "2" 5).1.shared_read_write_store "x" = some "2" :=
  ⟨by decide, by decide, by decide⟩

/-- C1 (amended): `shared_set` never fails: it calls `validate(WRITE)` but
ignores the boolean result, so for every state, call stack, key and value it
returns successfully and the shared read-write store afterwards maps the key
to the value — regardless of the caller's level or registration. -/
theorem C1_shared_set_always_succeeds (st : KVState) (frames : List Path)
    (key value : String) (now : Int) :
    (st.shared_set frames key value now).2 = Except.ok () ∧
    dictGet (st.shared_set frames key value now).1.shared_read_write_store key = some value := by
  refine ⟨rfl, ?_⟩
  show dictGet (dictSet st.shared_read_write_store key value) key = some value
  exact dictGet_dictSet_self _ _ _

/-- C3 counterexample: the resolved zone type `"zunknown"` does not contain
`"plugin"` and is not equal to `"unknown"`, yet `register(ADMIN)` is
rejected, because the code tests substring containment of `"unknown"`. -/
theorem C3_counterexample :
    getPathInfo [zunknownRoot] framesZ =
      Except.ok { name := "mod", path := ["/", "zunknown", "mod", "x.py"], type := "zunknown" } ∧
    strContains "zunknown" "plugin" = false ∧
    "zunknown" ≠ "unknown" ∧
    (CMState.init [zunknownRoot]).register framesZ AccessLevel.ADMIN "tok" 1 =
      Except.error "Admin access level is not allowed for caller: mod" :=
  ⟨by decide, by decide, by decide, by decide⟩

/-- C3 (amended): for a resolved caller, `register(ADMIN)` succeeds iff the
resolved zone type contains neither `"plugin"` nor `"unknown"` as a
substring. -/
theorem C3_admin_gate (st : CMState) (frames : List Path) (tok : String) (now : Int)
    (pathinfo : PathInfo)
    (hres : getPathInfo st.base_paths frames = Except.ok pathinfo) :
    (∃ r, st.register frames AccessLevel.ADMIN tok now = Except.ok r) ↔
      (strContains pathinfo.type "plugin" = false ∧
       strContains pathinfo.type "unknown" = false) := by
  constructor
  · rintro ⟨r, hr⟩
    by_cases hor : (strContains pathinfo.type "plugin" ||
        strContains pathinfo.type "unknown") = true
    · have hcan : canEscalateToAdmin pathinfo = false := by
        simp [canEscalateToAdmin, hor]
      unfold CMState.register at hr
      rw [hres] at hr
      dsimp only at hr
      rw [if_pos (by simp [hcan])] at hr
      exact absurd hr (by simp)
    · simp only [Bool.or_eq_true, not_or, Bool.not_eq_true] at hor
      exact hor
  · rintro ⟨hp, hu⟩
    have hcan : canEscalateToAdmin pathinfo = true := by
      simp [canEscalateToAdmin, hp, hu]
    have heq : st.register frames AccessLevel.ADMIN tok now =
        Except.ok
          ({ st with
             table := dictSet st.table pathinfo.name
                        { name := pathinfo.name, key := pathinfo.name ++ "_" ++ tok,
                          access_level := AccessLevel.ADMIN, path := pathinfo.path,
                          type := pathinfo.type, enabled := false, created_at := now,
                          last_access := now, access_count := 0 } },
           { name := pathinfo.name, key := pathinfo.name ++ "_" ++ tok,
             access_level := AccessLevel.ADMIN, path := pathinfo.path,
             type := pathinfo.type, enabled := false, created_at := now,
             last_access := now, access_count := 0 }) := by
      unfold CMState.register
      rw [hres]
      dsimp only
      rw [if_neg (by simp [hcan])]
    exact ⟨_, heq⟩

/-- Witness for C3 at zone `core`: `register(ADMIN)` under `/core` succeeds. -/
theorem C3_witness :
    getPathInfo (CMState.init [coreRoot]).base_paths framesB =
      Except.ok { name := "b", path := frameB, type := "core" } ∧
    (∃ r, (CMState.init [coreRoot]).register framesB AccessLevel.ADMIN "tok" 1 =
      Except.ok r) :=
  ⟨by decide,
   (C3_admin_gate (CMState.init [coreRoot]) framesB "tok" 1
      { name := "b", path := frameB, type := "core" } (by decide)).mpr
     ⟨by decide, by decide⟩⟩

/-- C5: over a well-formed table, `validate(op)` returns `true` iff the
resolved caller has a stored credential whose level admits `op` per the
permission table (ADMIN and READ_WRITE admit both, WRITE_ONLY only WRITE,
READ_ONLY only READ); an unresolvable or unregistered caller yields
`false`. -/
theorem C5_validate_permission_table (st : CMState) (frames : List Path)
    (operation : AccessOperation) (now : Int) (hwf : WellFormed st) :
    (st.validate frames operation now).2 = true ↔
      ∃ pathinfo c, getPathInfo st.base_paths frames = Except.ok pathinfo ∧
        dictGet st.table pathinfo.name = some c ∧
        permitsTable c.access_level operation = true := by
  unfold CMState.validate
  rw [getCredential_spec st frames operation now hwf]
  cases hres : getPathInfo st.base_paths frames with
  | error e =>
      dsimp only
      constructor
      · intro h
        exact absurd h (by simp)
      · rintro ⟨pathinfo, c, hok, _, _⟩
        exact absurd hok (by simp)
  | ok pathinfo =>
      dsimp only
      cases hget : dictGet st.table pathinfo.name with
      | none =>
          dsimp only
          constructor
          · intro h
            exact absurd h (by simp)
          · rintro ⟨pathinfo', c, hok, hget', _⟩
            cases hok
            rw [hget] at hget'
            exact absurd hget' (by simp)
      | some c =>
          dsimp only
          by_cases hp : levelPermits c.access_level operation = true
          · rw [if_pos hp]
            dsimp only
            constructor
            · intro _
              exact ⟨pathinfo, c, rfl, hget,
                by rw [← levelPermits_eq_permitsTable]; exact hp⟩
            · intro _
              rfl
          · rw [if_neg hp]
            dsimp only
            constructor
            · intro h
              exact absurd h (by simp)
            · rintro ⟨pathinfo', c', hok, hget', hp'⟩
              cases hok
              rw [hget] at hget'
              have hcc : c' = c := by
                injection hget' with h'
                exact h'.symm
              subst hcc
              rw [← levelPermits_eq_permitsTable] at hp'
              exact (hp hp').elim

/-- Witness for C5: `b` is registered `READ_ONLY`, so `validate(READ)` is
`true`. -/
theorem C5_witness :
    WellFormed stB.cm ∧ (stB.cm.validate framesB AccessOperation.READ 5).2 = true :=
  ⟨by decide,
   (C5_validate_permission_table stB.cm framesB AccessOperation.READ 5 (by decide)).mpr
     ⟨{ name := "b", path := frameB, type := "core" }, credB, by decide, by decide, by decide⟩⟩

/-- C6: for a registered caller whose stored credential `c₀` admits `op`,
`getCredential` returns a new credential with `enabled = true`,
`last_access = now`, `access_count = c₀.access_count + 1`, and replaces the
stored row with the same updated stats; `name`, `key`, `access_level`,
`path`, `type` (and `created_at`) are carried over unchanged. -/
theorem C6_fetch_updates_stats (st : CMState) (frames : List Path)
    (operation : AccessOperation) (now : Int) (pathinfo : PathInfo) (c₀ : Credentials)
    (hwf : WellFormed st)
    (hres : getPathInfo st.base_paths frames = Except.ok pathinfo)
    (hget : dictGet st.table pathinfo.name = some c₀)
    (hperm : levelPermits c₀.access_level operation = true) :
    st.getCredential frames operation now =
      Except.ok
        ({ st with
           table := dictSet st.table pathinfo.name
                      { c₀ with enabled := true, last_access := now,
                                access_count := c₀.access_count + 1 } },
         { c₀ with enabled := true, last_access := now,
                   access_count := c₀.access_count + 1 }) := by
  rw [getCredential_spec st frames operation now hwf, hres]
  dsimp only
  rw [hget]
  dsimp only
  rw [if_pos hperm, with_updated_access_stats, with_updated_access_none_none]

/-- Witness for C6: `b`'s `READ_ONLY` credential fetched for `READ` at time
5 comes back enabled with the stats bumped, and the table row is replaced
alike. -/
theorem C6_witness :
    WellFormed stB.cm ∧
    stB.cm.getCredential framesB AccessOperation.READ 5 =
      Except.ok
        ({ stB.cm with
           table := dictSet stB.cm.table "b"
                      { credB with enabled := true, last_access := 5,
                                   access_count := credB.access_count + 1 } },
         { credB with enabled := true, last_access := 5,
                      access_count := credB.access_count + 1 }) :=
  ⟨by decide,
   C6_fetch_updates_stats stB.cm framesB AccessOperation.READ 5
     { name := "b", path := frameB, type := "core" } credB
     (by decide) (by decide) (by decide) (by decide)⟩

/-- C2 counterexample: with `b` registered `READ_ONLY`, a successful
`validate(READ)` rewrites the stored row (`enabled`, `last_access`,
`access_count` all change), so `validate` does mutate the credential
table. -/
theorem C2_counterexample :
    (stB.cm.validate framesB AccessOperation.READ 5).1.table ≠ stB.cm.table ∧
    dictGet (stB.cm.validate framesB AccessOperation.READ 5).1.table "b" =
      some { name := "b", key := "b_tok", access_level := AccessLevel.READ_ONLY,
             path := frameB, type := "core", enabled := true, created_at := 1,
             last_access := 5, access_count := 1 } ∧
    dictGet stB.cm.table "b" = some credB :=
  ⟨by decide, by decide, by decide⟩

/-- Case analysis of the state `validate` leaves behind: either untouched, or
with exactly the resolved caller's row replaced by its stat-updated copy. -/
theorem validate_fst_cases (st : CMState) (frames : List Path)
    (operation : AccessOperation) (now : Int) (hwf : WellFormed st) :
    (st.validate frames operation now).1 = st ∨
    ∃ pathinfo c, getPathInfo st.base_paths frames = Except.ok pathinfo ∧
      dictGet st.table pathinfo.name = some c ∧
      (st.validate frames operation now).1 =
        { st with
          table := dictSet st.table pathinfo.name
                     (c.with_updated_access (some now) (some (c.access_count + 1)) now) } := by
  unfold CMState.validate
  rw [getCredential_spec st frames operation now hwf]
  cases hres : getPathInfo st.base_paths frames with
  | error e => exact Or.inl rfl
  | ok pathinfo =>
      dsimp only
      cases hget : dictGet st.table pathinfo.name with
      | none => exact Or.inl rfl
      | some c =>
          dsimp only
          by_cases hp : levelPermits c.access_level operation = true
          · rw [if_pos hp]
            exact Or.inr ⟨pathinfo, c, rfl, hget, rfl⟩
          · rw [if_neg hp]
            exact Or.inl rfl

/-- C2 (amended): `validate` is total (any resolution error yields `false`
with the state untouched — it never throws), and on every path each row of
the resulting table is an update of the row stored under the same key that
can differ only in the stats (`enabled`, `last_access`, `access_count`):
`name`, `key`, `access_level`, `path`, `type`, `created_at` are never
modified. On a successful validation the resolved caller's stats are in fact
rewritten (see the counterexample), so `validate` is not mutation-free. -/
theorem C2_validate_total_and_frame (st : CMState) (frames : List Path)
    (operation : AccessOperation) (now : Int) (hwf : WellFormed st) :
    (∀ e, getPathInfo st.base_paths frames = Except.error e →
        st.validate frames operation now = (st, false)) ∧
    ∀ k c, dictGet ((st.validate frames operation now).1).table k = some c →
      ∃ c₀, dictGet st.table k = some c₀ ∧ c.name = c₀.name ∧ c.key = c₀.key ∧
        c.access_level = c₀.access_level ∧ c.path = c₀.path ∧ c.type = c₀.type ∧
        c.created_at = c₀.created_at := by
  constructor
  · intro e he
    unfold CMState.validate
    rw [getCredential_spec st frames operation now hwf, he]
  · intro k c hk
    rcases validate_fst_cases st frames operation now hwf with hcase | ⟨pathinfo, c₀, _, hget, hcase⟩
    · rw [hcase] at hk
      exact ⟨c, hk, rfl, rfl, rfl, rfl, rfl, rfl⟩
    · rw [hcase] at hk
      by_cases hkp : k = pathinfo.name
      · subst hkp
        rw [dictGet_dictSet_self] at hk
        injection hk with hk
        refine ⟨c₀, hget, ?_⟩
        rw [← hk]
        exact ⟨rfl, rfl, rfl, rfl, rfl, rfl⟩
      · rw [dictGet_dictSet_ne _ _ _ _ hkp] at hk
        exact ⟨c, hk, rfl, rfl, rfl, rfl, rfl, rfl⟩

/-- Witness for C2: on an empty call stack, `validate` returns `false` and
leaves the registered state untouched. -/
theorem C2_witness :
    WellFormed stB.cm ∧
    stB.cm.validate ([] : List Path) AccessOperation.READ 9 = (stB.cm, false) :=
  ⟨by decide,
   (C2_validate_total_and_frame stB.cm ([] : List Path) AccessOperation.READ 9
      (by decide)).1 "No stack frames found." (by decide)⟩

/-- C4: after a caller registers, stores a key privately, and registers
again, the registration callback installs a fresh empty private store under
the caller's name, so a subsequent private `get(k)` returns the default, not
the stored value. -/
theorem C4_reregister_resets_private (st st1 st2 st3 : KVState) (frames : List Path)
    (lvl lvl' : AccessLevel) (tok tok' key value : String)
    (now1 now2 now3 now4 : Int) (cred1 cred3 : Credentials)
    (default : Option String) (r2 : Except String Unit)
    (h1 : st.register frames lvl tok now1 = Except.ok (st1, cred1))
    (h2 : st1.set frames key value now2 = (st2, r2))
    (h3 : st2.register frames lvl' tok' now3 = Except.ok (st3, cred3)) :
    dictGet st3.caller_storages cred3.name = some [] ∧
    (st3.get frames key default now4).2 = Except.ok default := by
  obtain ⟨pathinfo, hres, hname, hbp, hcs⟩ := kv_register_ok_elim h3
  have hlookup : dictGet st3.caller_storages pathinfo.name = some ([] : Store) := by
    rw [hcs]
    exact dictGet_dictSet_self _ _ _
  constructor
  · rw [hname]
    exact hlookup
  · unfold KVState.get
    dsimp only
    have hbp2 : ((st3.cm.validate frames AccessOperation.READ now4).1).base_paths =
        st2.cm.base_paths := by
      rw [validate_fst_base_paths]
      exact hbp
    rw [hbp2, hres]
    dsimp only
    rw [hlookup]
    rfl

/-- Witness for C4: `b` registers, stores `k ↦ v`, registers again; the
private store is empty again and `get("k", "d")` returns `"d"`. -/
theorem C4_witness :
    ((KVState.init [coreRoot]).register framesB AccessLevel.READ_ONLY "tok" 1 =
        Except.ok (stB, credB)) ∧
    (stB.set framesB "k" "v" 2 = (stB2, Except.ok ())) ∧
    (stB2.register framesB AccessLevel.READ_WRITE "tok2" 3 = Except.ok (stB3, credB2)) ∧
    (dictGet stB3.caller_storages credB2.name = some [] ∧
     (stB3.get framesB "k" (some "d") 4).2 = Except.ok (some "d")) :=
  ⟨by decide, by decide, by decide,
   C4_reregister_resets_private (KVState.init [coreRoot]) stB stB2 stB3 framesB
     AccessLevel.READ_ONLY AccessLevel.READ_WRITE "tok" "tok2" "k" "v" 1 2 3 4
     credB credB2 (some "d") (Except.ok ()) (by decide) (by decide) (by decide)⟩

/-- C7: with nested roots `R1 ⊂ R2` both configured, a caller frame lying
under `R2` resolves against the deeper root: the zone type is the
lower-cased basename of `R2` and the name is the first path segment below
`R2`. -/
theorem C7_most_specific_root (R1 R2 : Path) (m : String) (rest : List String) (g : Path)
    (hpre : R1 <+: R2) (hlen : R1.length < R2.length) (hne : R2 ≠ []) :
    getPathInfo [R1, R2] [R2 ++ m :: rest, g] =
      Except.ok { name := m, path := R2 ++ m :: rest,
                  type := strLower (R2.getLast hne) } := by
  obtain ⟨s, hs⟩ := hpre
  have hm1 : relative_to (R2 ++ m :: rest) R1 = some (s ++ m :: rest) := by
    rw [← hs, List.append_assoc]
    exact relative_to_append _ _
  have hm2 : relative_to (R2 ++ m :: rest) R2 = some (m :: rest) :=
    relative_to_append _ _
  have hfm : frameMatches [R1, R2] (R2 ++ m :: rest) =
      [{ base_path := R1, parts := s ++ m :: rest, base_type := baseTypeOf R1,
         depth := R1.length },
       { base_path := R2, parts := m :: rest, base_type := baseTypeOf R2,
         depth := R2.length }] := by
    unfold frameMatches
    simp only [List.filterMap_cons, List.filterMap_nil, hm1, hm2]
    have hpos1 : 0 < (s ++ m :: rest).length := by simp
    have hpos2 : 0 < (m :: rest).length := by simp
    rw [if_pos hpos1, if_pos hpos2]
  unfold getPathInfo
  rw [if_neg (by simp)]
  have hdrop : ([R2 ++ m :: rest, g] : List Path).dropLast.reverse = [R2 ++ m :: rest] := rfl
  rw [hdrop]
  unfold resolveFrames
  rw [hfm]
  dsimp only
  unfold pickBest
  dsimp only
  rw [if_pos hlen]
  unfold pickBest
  rw [baseTypeOf_eq_getLast R2 hne]
  rfl

/-- Witness for C7 at the spec's scenario S4: roots `[/a, /a/b]`, caller file
`/a/b/mod/x` resolves to zone `b`, name `mod`. -/
theorem C7_witness :
    (["/", "a"] : Path) <+: ["/", "a", "b"] ∧
    (["/", "a"] : Path).length < (["/", "a", "b"] : Path).length ∧
    getPathInfo [["/", "a"], ["/", "a", "b"]] [["/", "a", "b", "mod", "x"], frameRes] =
      Except.ok { name := "mod", path := ["/", "a", "b", "mod", "x"], type := "b" } :=
  ⟨by decide, by decide,
   C7_most_specific_root ["/", "a"] ["/", "a", "b"] "mod" ["x"] frameRes
     (by decide) (by decide) (by decide)⟩

/-- C9: from any table in which every stored credential's name equals its
key (in particular the empty initial table), any sequence of `register`,
`validate`, `getCredential` and `getKey` calls preserves that invariant:
`register` stores the freshly built credential under the caller name it
carries, and the stat-update path rewrites a row with `with_updated_access`,
which keeps the name. -/
theorem C9_table_names_invariant (st₀ : CMState) (ops : List CMOp)
    (h₀ : NamesMatch st₀.table) : NamesMatch ((ops.foldl stepCM st₀).table) := by
  induction ops generalizing st₀ with
  | nil => exact h₀
  | cons op ops ih =>
      exact ih (stepCM st₀ op) (stepCM_namesMatch st₀ op h₀)

/-- Witness for C9: a concrete run of register / validate / getCredential /
getKey from the empty table keeps the invariant. -/
theorem C9_witness :
    NamesMatch (CMState.init [coreRoot]).table ∧
    NamesMatch
      (([CMOp.registerOp framesB AccessLevel.READ_ONLY "tok" 1,
         CMOp.validateOp framesB AccessOperation.READ 5,
         CMOp.getCredentialOp framesB AccessOperation.READ 6,
         CMOp.getKeyOp framesB].foldl stepCM (CMState.init [coreRoot])).table) :=
  ⟨by decide, C9_table_names_invariant (CMState.init [coreRoot]) _ (by decide)⟩

end SSKV
